import Mathlib

/-!
Verification of Relation DETR model components
(`src/transformers/models/relation_detr/modeling_relation_detr.py`).

Shallow embedding: tensors are modelled as functions or lists over ℚ / ℝ,
boolean masks as `Bool`-valued functions, fallible code as `Except`.
-/

namespace RelationDetr

/-! ### Multiscale deformable attention sampling locations

Embeds the reference-point branch of
`RelationDetrMultiscaleDeformableAttention.forward` (lines 719-732).
`spatial_shape` is a `(height, width)` pair, as stored in `spatial_shapes`
(rows of spatial shapes are `(h, w)`); the code builds the offset
normalizer as `stack([spatial_shapes[..., 1], spatial_shapes[..., 0]])`,
i.e. `(width, height)`.  A reference point is its last-dimension vector;
an offset is an `(x, y)` pair. -/
def sampling_location (reference_point : List ℚ) (offset : ℚ × ℚ)
    (spatial_shape : ℚ × ℚ) (n_points : ℚ) : Except String (ℚ × ℚ) :=
  if reference_point.length = 2 then
    -- offset_normalizer = (width, height) = (spatial_shape.2, spatial_shape.1)
    Except.ok (reference_point.getD 0 0 + offset.1 / spatial_shape.2,
               reference_point.getD 1 0 + offset.2 / spatial_shape.1)
  else if reference_point.length = 4 then
    Except.ok (reference_point.getD 0 0 + offset.1 / n_points * reference_point.getD 2 0 * 0.5,
               reference_point.getD 1 0 + offset.2 / n_points * reference_point.getD 3 0 * 0.5)
  else
    Except.error "Last dim of reference_points must be 2 or 4"

/-! ### Group-wise denoising box noise

Embeds `GenerateDNQueries.apply_box_noise` (lines 2242-2250).  A box is
`(cx, cy, w, h)`; the random draw is one uniform sample `u ∈ [0, 1]` per
coordinate (`torch.rand_like`), turned into `u * 2 - 1 ∈ [-1, 1]`. -/
structure DNBox where
  cx : ℚ
  cy : ℚ
  w : ℚ
  h : ℚ
deriving DecidableEq

def clamp01 (x : ℚ) : ℚ := min (max x 0) 1

def apply_box_noise (box_noise_scale : ℚ) (boxes rand : DNBox) : DNBox :=
  if 0 < box_noise_scale then
    -- diff[:, :2] = boxes[:, 2:] / 2 ; diff[:, 2:] = boxes[:, 2:]
    let dcx := boxes.w / 2
    let dcy := boxes.h / 2
    let dw := boxes.w
    let dh := boxes.h
    -- boxes += (rand * 2 - 1) * diff * box_noise_scale ; clamp to [0, 1]
    { cx := clamp01 (boxes.cx + (rand.cx * 2 - 1) * dcx * box_noise_scale)
      cy := clamp01 (boxes.cy + (rand.cy * 2 - 1) * dcy * box_noise_scale)
      w := clamp01 (boxes.w + (rand.w * 2 - 1) * dw * box_noise_scale)
      h := clamp01 (boxes.h + (rand.h * 2 - 1) * dh * box_noise_scale) }
  else
    boxes

def inUnitBox (b : DNBox) : Prop :=
  0 ≤ b.cx ∧ b.cx ≤ 1 ∧ 0 ≤ b.cy ∧ b.cy ≤ 1 ∧ 0 ≤ b.w ∧ b.w ≤ 1 ∧ 0 ≤ b.h ∧ b.h ≤ 1

instance (b : DNBox) : Decidable (inUnitBox b) := by
  unfold inUnitBox
  infer_instance

/-! ### Contrastive denoising group count

Embeds the `denoising_groups` recomputation in `GenerateCDNQueries.forward`
(lines 2459-2463): `num_denoising * max_gt // max(max_gt ** 2, 1)` followed
by `max(·, 1)`. -/
def effective_denoising_groups (num_denoising max_gt_num_per_image : ℕ) : ℕ :=
  let denoising_groups := num_denoising * max_gt_num_per_image / max (max_gt_num_per_image ^ 2) 1
  max denoising_groups 1

/-! ### Valid ratios

Embeds `RelationDetrModel.get_valid_ratios` (lines 1866-1876).  The mask
argument uses the convention of that function (`True` = padding, since
`multi_level_valid_ratios` passes `~m`); `valid_h` counts un-set entries of
the first column `mask[:, :, 0]`, `valid_w` of the first row `mask[:, 0, :]`;
the result per image is the pair `(valid_w / w, valid_h / h)`, and a
degenerate `h == 0 or w == 0` shape short-circuits to ones. -/
def get_valid_ratios (mask : ℕ → ℕ → ℕ → Bool) (b h w : ℕ) : List (ℚ × ℚ) :=
  if h = 0 ∨ w = 0 then
    (List.range b).map (fun _ => ((1 : ℚ), (1 : ℚ)))
  else
    (List.range b).map (fun img =>
      let valid_h := ((List.range h).filter (fun i => !(mask img i 0))).length
      let valid_w := ((List.range w).filter (fun j => !(mask img 0 j))).length
      ((valid_w : ℚ) / (w : ℚ), (valid_h : ℚ) / (h : ℚ)))

/-! ### Denoising query attention mask

Embeds `GenerateDNQueries.generate_query_masks` (lines 2252-2264).  The
mask starts as `torch.zeros(tgt_size, tgt_size, dtype=bool)`; the write
`attn_mask[noised_query_nums:, :noised_query_nums] = True` blocks ordinary
(match) queries from the denoising block, and each loop iteration blocks a
group's rows from every denoising column outside that group's own diagonal
block.  `noised` abbreviates `max_gt_num_per_image * denoising_groups`. -/
def in_group_block (m noised grp i j : ℕ) : Prop :=
  m * grp ≤ i ∧ i < m * (grp + 1) ∧ (j < m * grp ∨ (m * (grp + 1) ≤ j ∧ j < noised))

instance (m noised grp i j : ℕ) : Decidable (in_group_block m noised grp i j) := by
  unfold in_group_block
  infer_instance

def group_write (m noised : ℕ) (f : ℕ → ℕ → Bool) (grp : ℕ) : ℕ → ℕ → Bool :=
  fun i j =>
    if in_group_block m noised grp i j then
      true
    else
      f i j

def generate_query_masks (denoising_groups max_gt_num_per_image : ℕ) : ℕ → ℕ → Bool :=
  let noised := max_gt_num_per_image * denoising_groups
  (List.range denoising_groups).foldl (group_write max_gt_num_per_image noised)
    (fun i j => decide (noised ≤ i) && decide (j < noised))

/-- The mask tensor itself: `torch.zeros(tgt_size, tgt_size)` with
`tgt_size = max_gt_num_per_image * denoising_groups + num_queries`, with every
entry given by `generate_query_masks`. -/
def generate_query_masks_matrix (denoising_groups max_gt_num_per_image num_queries : ℕ) :
    List (List Bool) :=
  let tgt_size := max_gt_num_per_image * denoising_groups + num_queries
  (List.range tgt_size).map (fun i =>
    (List.range tgt_size).map (fun j => generate_query_masks denoising_groups max_gt_num_per_image i j))

/-! ### Mask polarity conversions

Embeds the single inversion in `RelationDetrForObjectDetection.forward`
(line 2652, `self_attention_mask = ~self_attention_mask`), the
boolean-to-additive conversion in `RelationDetrMultiheadAttention.forward`
(lines 834-837: a zero tensor `masked_fill_`-ed with `-inf` where the
boolean mask is `False`), and the relation-bias fill in
`RelationDetrDecoder.forward` (lines 1643-1644:
`position_relation.masked_fill_(~self_attention_mask, float("-inf"))`).
Additive biases live in `WithBot ℚ`, with `⊥` standing for `-inf`. -/
def invert_mask (mask : ℕ → ℕ → Bool) : ℕ → ℕ → Bool :=
  fun i j => !(mask i j)

def mha_bool_to_additive (attention_mask : ℕ → ℕ → Bool) : ℕ → ℕ → WithBot ℚ :=
  fun i j => if attention_mask i j then (0 : WithBot ℚ) else ⊥

def relation_mask_fill (position_relation : ℕ → ℕ → ℚ) (self_attention_mask : ℕ → ℕ → Bool) :
    ℕ → ℕ → WithBot ℚ :=
  fun i j => if self_attention_mask i j then ((position_relation i j : ℚ) : WithBot ℚ) else ⊥

/-! ### Numeric primitives over ℝ

`inverse_sigmoid` embeds lines 369-373 (`x.clamp(min=0, max=1)`, then
`clamp(min=eps)` on `x` and `1 - x`, then `log(x1 / x2)`); `sigmoid` is
`torch.sigmoid`. -/
noncomputable def inverse_sigmoid (x : ℝ) : ℝ :=
  let xc := min (max x 0) 1
  let x1 := max xc 1e-5
  let x2 := max (1 - xc) 1e-5
  Real.log (x1 / x2)

noncomputable def sigmoid (x : ℝ) : ℝ :=
  1 / (1 + Real.exp (-x))

/-! ### Frozen batch normalization

Embeds `RelationDetrFrozenBatchNorm2d.forward` (lines 403-413): per-channel
buffers broadcast over a `(batch, channel, height, width)` tensor,
`scale = weight * rsqrt(running_var + 1e-5)`,
output `x * scale + (bias - running_mean * scale)`. -/
noncomputable def frozen_batch_norm_forward (weight bias running_mean running_var : ℕ → ℝ)
    (x : ℕ → ℕ → ℕ → ℕ → ℝ) : ℕ → ℕ → ℕ → ℕ → ℝ :=
  fun n c i j =>
    let scale := weight c * (Real.sqrt (running_var c + 1e-5))⁻¹
    x n c i j * scale + (bias c - running_mean c * scale)

/-- Modelled from the spec wording of the direct broadcast formula:
`weight * (x - running_mean) / sqrt(running_var + 1e-5) + bias`, elementwise. -/
noncomputable def frozen_batch_norm_direct (weight bias running_mean running_var : ℕ → ℝ)
    (x : ℕ → ℕ → ℕ → ℕ → ℝ) : ℕ → ℕ → ℕ → ℕ → ℝ :=
  fun n c i j =>
    weight c * (x n c i j - running_mean c) / Real.sqrt (running_var c + 1e-5) + bias c

/-! ### Decoder per-layer heads and the detection head's last-layer slice

Embeds the per-layer tail of `RelationDetrDecoder.forward` (lines
1629-1664): after each decoder layer (modelled by an abstract per-index
update `decoder_layer`), class logits are `class_head[idx](norm(h))`
with `class_head[idx] = nn.Linear(d_model, num_labels)` (lines 1498-1499),
box logits are `bbox_head[idx](norm(h)) + inverse_sigmoid(ref)` passed
through a sigmoid, and the next reference points are
`sigmoid(bbox_head[idx](h) + inverse_sigmoid(ref))`; the per-layer outputs
are stacked along a new layer axis in loop order.
`RelationDetrForObjectDetection.forward` (lines 2680-2685) then takes the
slice at layer index `-1` of the stacked class/box tensors. -/
noncomputable def dot (w x : List ℝ) : ℝ :=
  ((w.zip x).map (fun p => p.1 * p.2)).sum

noncomputable def linear_forward (weight : List (List ℝ)) (bias : List ℝ) (x : List ℝ) :
    List ℝ :=
  (weight.zip bias).map (fun wb => dot wb.1 x + wb.2)

noncomputable def decoder_layers_loop (decoder_layer : ℕ → List ℝ → List ℝ)
    (norm : List ℝ → List ℝ)
    (class_head_weight : ℕ → List (List ℝ)) (class_head_bias : ℕ → List ℝ)
    (bbox_head : ℕ → List ℝ → List ℝ) :
    ℕ → ℕ → List ℝ → List ℝ → List (List ℝ) × List (List ℝ)
  | _, 0, _, _ => ([], [])
  | idx, fuel + 1, hidden_states, reference_points =>
    let h := decoder_layer idx hidden_states
    let inv_reference_points := reference_points.map inverse_sigmoid
    let outputs_class := linear_forward (class_head_weight idx) (class_head_bias idx) (norm h)
    let outputs_coord_logits := List.zipWith (fun a b => a + b) (bbox_head idx (norm h)) inv_reference_points
    let outputs_coord := outputs_coord_logits.map sigmoid
    let next_reference_points :=
      (List.zipWith (fun a b => a + b) (bbox_head idx h) inv_reference_points).map sigmoid
    let rest := decoder_layers_loop decoder_layer norm class_head_weight class_head_bias
      bbox_head (idx + 1) fuel h next_reference_points
    (outputs_class :: rest.1, outputs_coord :: rest.2)

noncomputable def decoder_forward (decoder_layer : ℕ → List ℝ → List ℝ)
    (norm : List ℝ → List ℝ)
    (class_head_weight : ℕ → List (List ℝ)) (class_head_bias : ℕ → List ℝ)
    (bbox_head : ℕ → List ℝ → List ℝ) (decoder_layers : ℕ)
    (hidden_states reference_points : List ℝ) : List (List ℝ) × List (List ℝ) :=
  decoder_layers_loop decoder_layer norm class_head_weight class_head_bias bbox_head 0
    decoder_layers hidden_states reference_points

/-- The numpy/torch slice `stack[:, -1]` along the layer axis: the entry at
index `length - 1`. -/
def layer_slice_neg_one {α : Type} (stack : List α) : Option α :=
  stack.get? (stack.length - 1)

/-- `logits` and `pred_boxes` as assembled by
`RelationDetrForObjectDetection.forward` (lines 2680-2685): the layer-`-1`
slice of the stacked decoder class and box outputs. -/
noncomputable def detection_head_outputs (decoder_layer : ℕ → List ℝ → List ℝ)
    (norm : List ℝ → List ℝ)
    (class_head_weight : ℕ → List (List ℝ)) (class_head_bias : ℕ → List ℝ)
    (bbox_head : ℕ → List ℝ → List ℝ) (decoder_layers : ℕ)
    (hidden_states reference_points : List ℝ) : Option (List ℝ) × Option (List ℝ) :=
  let outs := (decoder_forward decoder_layer norm class_head_weight class_head_bias bbox_head
    decoder_layers hidden_states reference_points)
  (layer_slice_neg_one outs.1, layer_slice_neg_one outs.2)

/-! ## Helper lemmas -/

lemma clamp01_nonneg (x : ℚ) : 0 ≤ clamp01 x :=
  le_min (le_max_right x 0) zero_le_one

lemma clamp01_le_one (x : ℚ) : clamp01 x ≤ 1 :=
  min_le_right _ _

/-! ## Claims -/

/-- Claim C4: in multi-scale deformable attention, 2-D reference points give
sampling locations `ref + offset / (level_width, level_height)`, 4-D
reference points give `ref_xy + offset / n_points * ref_wh * 0.5`, any other
last dimension raises a `ValueError`, and the 2-D/4-D cases never raise. -/
theorem sampling_location_cases (ox oy h w n : ℚ) (reference_point : List ℚ) :
    (∀ rx ry, reference_point = [rx, ry] →
      sampling_location reference_point (ox, oy) (h, w) n =
        Except.ok (rx + ox / w, ry + oy / h)) ∧
    (∀ rx ry rw rh, reference_point = [rx, ry, rw, rh] →
      sampling_location reference_point (ox, oy) (h, w) n =
        Except.ok (rx + ox / n * rw * 0.5, ry + oy / n * rh * 0.5)) ∧
    (reference_point.length ≠ 2 → reference_point.length ≠ 4 →
      sampling_location reference_point (ox, oy) (h, w) n =
        Except.error "Last dim of reference_points must be 2 or 4") ∧
    (reference_point.length = 2 ∨ reference_point.length = 4 →
      ∃ loc, sampling_location reference_point (ox, oy) (h, w) n = Except.ok loc) := by
  refine ⟨?_, ?_, ?_, ?_⟩
  · rintro rx ry rfl
    simp [sampling_location]
  · rintro rx ry rw rh rfl
    simp [sampling_location]
  · intro h2 h4
    simp [sampling_location, h2, h4]
  · rintro (h2 | h4)
    · exact ⟨(reference_point.getD 0 0 + ox / w, reference_point.getD 1 0 + oy / h), by
        unfold sampling_location
        rw [if_pos h2]⟩
    · by_cases h2 : reference_point.length = 2
      · exact ⟨(reference_point.getD 0 0 + ox / w, reference_point.getD 1 0 + oy / h), by
          unfold sampling_location
          rw [if_pos h2]⟩
      · exact ⟨(reference_point.getD 0 0 + ox / n * reference_point.getD 2 0 * 0.5,
                reference_point.getD 1 0 + oy / n * reference_point.getD 3 0 * 0.5), by
          unfold sampling_location
          rw [if_neg h2, if_pos h4]⟩

/-- Witness for C4: the three branches evaluated at concrete inputs. -/
theorem sampling_location_cases_witness :
    sampling_location [(1 : ℚ)/4, 1/2] ((1 : ℚ), 2) ((8 : ℚ), 4) 4 =
        Except.ok ((1 : ℚ)/4 + 1 / 4, (1 : ℚ)/2 + 2 / 8) ∧
    sampling_location [(1 : ℚ)/4, 1/2, 1/3, 1/5] ((1 : ℚ), 2) ((8 : ℚ), 4) 4 =
        Except.ok ((1 : ℚ)/4 + 1 / 4 * (1/3) * 0.5, (1 : ℚ)/2 + 2 / 4 * (1/5) * 0.5) ∧
    sampling_location [(1 : ℚ), 2, 3] ((1 : ℚ), 2) ((8 : ℚ), 4) 4 =
        Except.error "Last dim of reference_points must be 2 or 4" :=
  ⟨(sampling_location_cases 1 2 8 4 4 [(1 : ℚ)/4, 1/2]).1 _ _ rfl,
   (sampling_location_cases 1 2 8 4 4 [(1 : ℚ)/4, 1/2, 1/3, 1/5]).2.1 _ _ _ _ rfl,
   (sampling_location_cases 1 2 8 4 4 [(1 : ℚ), 2, 3]).2.2.1 (by decide) (by decide)⟩

/-- Claim C5: the frozen-batch-norm forward (reshaped scale/bias form) equals
the direct broadcast formula `weight * (x - running_mean) / sqrt(running_var
+ 1e-5) + bias` elementwise. -/
theorem frozen_batch_norm_equiv (weight bias running_mean running_var : ℕ → ℝ)
    (x : ℕ → ℕ → ℕ → ℕ → ℝ) :
    frozen_batch_norm_forward weight bias running_mean running_var x =
      frozen_batch_norm_direct weight bias running_mean running_var x := by
  funext n c i j
  simp only [frozen_batch_norm_forward, frozen_batch_norm_direct]
  ring

/-- Claim C7: for a positive noise scale, any box with coordinates in [0,1]
and any per-coordinate uniform draw in [0,1] (turned into `u * 2 - 1`),
`apply_box_noise` returns a box in [0,1]^4; for a non-positive scale the box
is returned unchanged. -/
theorem apply_box_noise_in_unit_box (box_noise_scale : ℚ) (boxes rand : DNBox)
    (hbox : inUnitBox boxes) (_hrand : inUnitBox rand) :
    inUnitBox (apply_box_noise box_noise_scale boxes rand) ∧
    (box_noise_scale ≤ 0 → apply_box_noise box_noise_scale boxes rand = boxes) := by
  constructor
  · unfold apply_box_noise
    split
    · exact ⟨clamp01_nonneg _, clamp01_le_one _, clamp01_nonneg _, clamp01_le_one _,
        clamp01_nonneg _, clamp01_le_one _, clamp01_nonneg _, clamp01_le_one _⟩
    · exact hbox
  · intro hs
    unfold apply_box_noise
    rw [if_neg (not_lt.mpr hs)]

/-- Witness for C7 at a concrete box, draw and scale. -/
theorem apply_box_noise_in_unit_box_witness :
    inUnitBox ⟨9/10, 1/2, 1/2, 1/4⟩ ∧ inUnitBox ⟨1, 0, 1/2, 1/4⟩ ∧
    inUnitBox (apply_box_noise (2/5) ⟨9/10, 1/2, 1/2, 1/4⟩ ⟨1, 0, 1/2, 1/4⟩) ∧
    ((2 : ℚ)/5 ≤ 0 → apply_box_noise (2/5) ⟨9/10, 1/2, 1/2, 1/4⟩ ⟨1, 0, 1/2, 1/4⟩ =
      ⟨9/10, 1/2, 1/2, 1/4⟩) :=
  ⟨by norm_num [inUnitBox], by norm_num [inUnitBox],
   (apply_box_noise_in_unit_box (2/5) ⟨9/10, 1/2, 1/2, 1/4⟩ ⟨1, 0, 1/2, 1/4⟩
      (by norm_num [inUnitBox]) (by norm_num [inUnitBox])).1,
   (apply_box_noise_in_unit_box (2/5) ⟨9/10, 1/2, 1/2, 1/4⟩ ⟨1, 0, 1/2, 1/4⟩
      (by norm_num [inUnitBox]) (by norm_num [inUnitBox])).2⟩

/-- Claim C8: for `max_gt_num_per_image ≥ 1` the contrastive generator's
effective group count is `max 1 (num_denoising * m // m^2)` (floor division,
product first); it is always at least 1; and the divisor `max(m^2, 1)` is
positive even for `m = 0`, so no division by zero occurs. -/
theorem effective_denoising_groups_spec (num_denoising m : ℕ) :
    (1 ≤ m → effective_denoising_groups num_denoising m =
      max 1 (num_denoising * m / m ^ 2)) ∧
    1 ≤ effective_denoising_groups num_denoising m ∧
    0 < max (m ^ 2) 1 := by
  refine ⟨?_, ?_, ?_⟩
  · intro hm
    unfold effective_denoising_groups
    have hsq : 1 ≤ m ^ 2 := Nat.one_le_pow _ _ hm
    rw [Nat.max_eq_left hsq, Nat.max_comm]
  · exact le_max_right _ _
  · exact Nat.lt_of_lt_of_le Nat.one_pos (le_max_right _ _)

/-- Witness for C8 at `num_denoising = 100`, `m = 3`. -/
theorem effective_denoising_groups_spec_witness :
    1 ≤ 3 ∧ effective_denoising_groups 100 3 = max 1 (100 * 3 / 3 ^ 2) :=
  ⟨by decide, (effective_denoising_groups_spec 100 3).1 (by decide)⟩

/-- Claim C9: a fully valid mask of shape `(1, 4, 4)` yields valid ratios
`(1, 1)`, and a zero-height or zero-width mask yields `(1, 1)` for every
image via the degenerate-level special case. -/
theorem get_valid_ratios_ones (mask : ℕ → ℕ → ℕ → Bool) :
    ((∀ img i j, mask img i j = false) → get_valid_ratios mask 1 4 4 = [(1, 1)]) ∧
    (∀ b w, get_valid_ratios mask b 0 w =
      (List.range b).map (fun _ => ((1 : ℚ), (1 : ℚ)))) ∧
    (∀ b h, get_valid_ratios mask b h 0 =
      (List.range b).map (fun _ => ((1 : ℚ), (1 : ℚ)))) := by
  refine ⟨?_, ?_, ?_⟩
  · intro hm
    simp [get_valid_ratios, hm, List.filter_length_eq_length]
  · intro b w
    simp [get_valid_ratios]
  · intro b h
    simp [get_valid_ratios]

/-- Witness for C9 at the all-valid mask. -/
theorem get_valid_ratios_ones_witness :
    get_valid_ratios (fun _ _ _ => false) 1 4 4 = [(1, 1)] :=
  (get_valid_ratios_ones (fun _ _ _ => false)).1 (fun _ _ _ => rfl)

/-- Claim C10: for non-degenerate shapes, `get_valid_ratios` depends only on
the first column `mask[:, :, 0]` and the first row `mask[:, 0, :]`: two masks
agreeing on those slices produce identical outputs. -/
theorem get_valid_ratios_first_row_col (m1 m2 : ℕ → ℕ → ℕ → Bool) (b h w : ℕ)
    (hh : 1 ≤ h) (hw : 1 ≤ w)
    (hcol : ∀ img i, i < h → m1 img i 0 = m2 img i 0)
    (hrow : ∀ img j, j < w → m1 img 0 j = m2 img 0 j) :
    get_valid_ratios m1 b h w = get_valid_ratios m2 b h w := by
  unfold get_valid_ratios
  rw [if_neg (by omega), if_neg (by omega)]
  refine List.map_congr_left (fun img _ => ?_)
  have hfh : (List.range h).filter (fun i => !(m1 img i 0)) =
      (List.range h).filter (fun i => !(m2 img i 0)) :=
    List.filter_congr (fun i hi => by rw [hcol img i (List.mem_range.mp hi)])
  have hfw : (List.range w).filter (fun j => !(m1 img 0 j)) =
      (List.range w).filter (fun j => !(m2 img 0 j)) :=
    List.filter_congr (fun j hj => by rw [hrow img j (List.mem_range.mp hj)])
  rw [hfh, hfw]

/-- Witness for C10: two masks that differ away from the first row/column. -/
theorem get_valid_ratios_first_row_col_witness :
    get_valid_ratios (fun _ _ _ => false) 1 2 2 =
      get_valid_ratios (fun _ i j => decide (j = 1) && decide (i = 1)) 1 2 2 :=
  get_valid_ratios_first_row_col (fun _ _ _ => false)
    (fun _ i j => decide (j = 1) && decide (i = 1)) 1 2 2 (by decide) (by decide)
    (fun _ _ _ => rfl)
    (by intro img j hj; interval_cases j <;> rfl)

lemma foldl_group_write (m noised : ℕ) (l : List ℕ) (f : ℕ → ℕ → Bool) (i j : ℕ) :
    (l.foldl (group_write m noised) f) i j = true ↔
      f i j = true ∨ ∃ grp ∈ l, in_group_block m noised grp i j := by
  induction l generalizing f with
  | nil => simp
  | cons a l ih =>
    rw [List.foldl_cons, ih]
    unfold group_write
    constructor
    · rintro (hb | hrest)
      · by_cases ha : in_group_block m noised a i j
        · exact Or.inr ⟨a, List.mem_cons_self a l, ha⟩
        · rw [if_neg ha] at hb
          exact Or.inl hb
      · obtain ⟨grp, hmem, hgrp⟩ := hrest
        exact Or.inr ⟨grp, List.mem_cons_of_mem a hmem, hgrp⟩
    · rintro (hb | ⟨grp, hmem, hgrp⟩)
      · by_cases ha : in_group_block m noised a i j
        · exact Or.inl (by rw [if_pos ha])
        · exact Or.inl (by rw [if_neg ha]; exact hb)
      · rcases List.mem_cons.mp hmem with rfl | hmem
        · exact Or.inl (by rw [if_pos hgrp])
        · exact Or.inr ⟨grp, hmem, hgrp⟩

lemma generate_query_masks_iff (g m i j : ℕ) :
    generate_query_masks g m i j = true ↔
      (m * g ≤ i ∧ j < m * g) ∨ ∃ grp ∈ List.range g, in_group_block m (m * g) grp i j := by
  unfold generate_query_masks
  rw [foldl_group_write]
  simp

lemma exists_group_block_iff (g m i j : ℕ) (hm : 1 ≤ m) :
    (∃ grp ∈ List.range g, in_group_block m (m * g) grp i j) ↔
      (i < m * g ∧ j < m * g ∧ i / m ≠ j / m) := by
  have hm0 : 0 < m := hm
  constructor
  · rintro ⟨grp, hmem, hlo, hhi, hj⟩
    have hg : grp < g := List.mem_range.mp hmem
    have hsucc : m * (grp + 1) ≤ m * g := Nat.mul_le_mul_left m (Nat.succ_le_of_lt hg)
    have higlt : i < m * g := lt_of_lt_of_le hhi hsucc
    have hdiv : i / m = grp := by
      refine Nat.div_eq_of_lt_le ?_ ?_
      · rw [Nat.mul_comm]; exact hlo
      · rw [Nat.succ_mul, ← Nat.mul_comm m]
        rw [Nat.mul_add, Nat.mul_one] at hhi
        exact hhi
    rcases hj with hjlt | ⟨hjge, hjb⟩
    · have hjglt : j < m * g :=
        lt_of_lt_of_le hjlt (Nat.mul_le_mul_left m (Nat.le_of_lt hg))
      refine ⟨higlt, hjglt, ?_⟩
      have hjdiv : j / m < grp := (Nat.div_lt_iff_lt_mul hm0).mpr (by rw [Nat.mul_comm]; exact hjlt)
      omega
    · refine ⟨higlt, hjb, ?_⟩
      have hjdiv : grp + 1 ≤ j / m :=
        (Nat.le_div_iff_mul_le hm0).mpr (by rw [Nat.mul_comm]; exact hjge)
      omega
  · rintro ⟨hi, hj, hne⟩
    have himem : i / m < g := (Nat.div_lt_iff_lt_mul hm0).mpr (by rw [Nat.mul_comm]; exact hi)
    refine ⟨i / m, List.mem_range.mpr himem, ?_, ?_, ?_⟩
    · rw [Nat.mul_comm]
      exact Nat.div_mul_le_self i m
    · rw [Nat.mul_comm]
      exact (Nat.div_lt_iff_lt_mul hm0).mp (Nat.lt_succ_self (i / m))
    · rcases Nat.lt_or_ge (j / m) (i / m) with hlt | hge
      · left
        rw [Nat.mul_comm]
        exact (Nat.div_lt_iff_lt_mul hm0).mp hlt
      · right
        have hgt : i / m < j / m := lt_of_le_of_ne hge hne
        have hle : (i / m + 1) * m ≤ j := (Nat.le_div_iff_mul_le hm0).mp (Nat.succ_le_of_lt hgt)
        rw [Nat.mul_comm] at hle
        exact ⟨hle, hj⟩

/-- Claim C2: `generate_query_masks` returns a `(g*m+q) × (g*m+q)` boolean
mask whose entry `(i, j)` is `True` exactly when the row is an ordinary
query and the column lies in the denoising block, or both indices lie in the
denoising block in different groups (`i / m ≠ j / m`); all other entries
are `False`. -/
theorem generate_query_masks_spec (g m q : ℕ) (_hg : 1 ≤ g) (hm : 1 ≤ m) :
    (generate_query_masks_matrix g m q).length = g * m + q ∧
    (∀ row ∈ generate_query_masks_matrix g m q, row.length = g * m + q) ∧
    (∀ i j, i < g * m + q → j < g * m + q →
      (generate_query_masks g m i j = true ↔
        ((g * m ≤ i ∧ j < g * m) ∨ (i < g * m ∧ j < g * m ∧ i / m ≠ j / m)))) := by
  refine ⟨?_, ?_, ?_⟩
  · simp [generate_query_masks_matrix, Nat.mul_comm m g]
  · intro row hrow
    unfold generate_query_masks_matrix at hrow
    obtain ⟨i, _, rfl⟩ := List.mem_map.mp hrow
    simp [Nat.mul_comm m g]
  · intro i j _ _
    rw [generate_query_masks_iff, exists_group_block_iff g m i j hm, Nat.mul_comm m g]

/-- Witness for C2 at `denoising_groups = 2`, `max_gt_num_per_image = 3`,
`num_queries = 3`. -/
theorem generate_query_masks_spec_witness :
    1 ≤ 2 ∧ 1 ≤ 3 ∧
    ((generate_query_masks_matrix 2 3 3).length = 2 * 3 + 3 ∧
     (∀ row ∈ generate_query_masks_matrix 2 3 3, row.length = 2 * 3 + 3) ∧
     (∀ i j, i < 2 * 3 + 3 → j < 2 * 3 + 3 →
       (generate_query_masks 2 3 i j = true ↔
         ((2 * 3 ≤ i ∧ j < 2 * 3) ∨ (i < 2 * 3 ∧ j < 2 * 3 ∧ i / 3 ≠ j / 3))))) :=
  ⟨by decide, by decide, generate_query_masks_spec 2 3 3 (by decide) (by decide)⟩

/-- Claim C3: after the task head's single inversion of the generator mask
and the attention module's boolean-to-additive conversion, the additive bias
is `-inf` exactly at generator-blocked pairs and `0` elsewhere; the
relation-bias fill likewise puts `-inf` exactly at the pairs where the
inverted mask is `False`, keeping the relation value elsewhere. -/
theorem denoising_mask_polarity (g m : ℕ) (position_relation : ℕ → ℕ → ℚ) (i j : ℕ) :
    (mha_bool_to_additive (invert_mask (generate_query_masks g m)) i j =
      if generate_query_masks g m i j then (⊥ : WithBot ℚ) else 0) ∧
    (mha_bool_to_additive (invert_mask (generate_query_masks g m)) i j = ⊥ ↔
      generate_query_masks g m i j = true) ∧
    (relation_mask_fill position_relation (invert_mask (generate_query_masks g m)) i j =
      if generate_query_masks g m i j then (⊥ : WithBot ℚ)
      else ((position_relation i j : ℚ) : WithBot ℚ)) ∧
    (relation_mask_fill position_relation (invert_mask (generate_query_masks g m)) i j = ⊥ ↔
      invert_mask (generate_query_masks g m) i j = false) := by
  cases hM : generate_query_masks g m i j <;>
    simp [mha_bool_to_additive, invert_mask, relation_mask_fill, hM]

/-- Claim C6: `inverse_sigmoid` clamps its input to `[0,1]` and then clamps
both log-ratio operands to a minimum of `eps = 1e-5`, so on every real input
(including exactly 0 and exactly 1) the result is a bounded real number,
never infinite or NaN: the log argument always lies in `[1e-5, 1e5]`. -/
theorem inverse_sigmoid_bounded (x : ℝ) :
    -Real.log 100000 ≤ inverse_sigmoid x ∧ inverse_sigmoid x ≤ Real.log 100000 := by
  have hform : inverse_sigmoid x =
      Real.log (max (min (max x 0) 1) 1e-5 / max (1 - min (max x 0) 1) 1e-5) := rfl
  have hxc0 : (0 : ℝ) ≤ min (max x 0) 1 := le_min (le_max_right x 0) zero_le_one
  have hxc1 : min (max x 0) 1 ≤ 1 := min_le_right _ _
  have heps : (0 : ℝ) < 1e-5 := by norm_num
  have h1lo : (1e-5 : ℝ) ≤ max (min (max x 0) 1) 1e-5 := le_max_right _ _
  have h1hi : max (min (max x 0) 1) 1e-5 ≤ 1 := max_le hxc1 (by norm_num)
  have h2lo : (1e-5 : ℝ) ≤ max (1 - min (max x 0) 1) 1e-5 := le_max_right _ _
  have h2hi : max (1 - min (max x 0) 1) 1e-5 ≤ 1 := max_le (by linarith) (by norm_num)
  have hx1pos : (0 : ℝ) < max (min (max x 0) 1) 1e-5 := lt_of_lt_of_le heps h1lo
  have hx2pos : (0 : ℝ) < max (1 - min (max x 0) 1) 1e-5 := lt_of_lt_of_le heps h2lo
  have hrlo : (1e-5 : ℝ) ≤
      max (min (max x 0) 1) 1e-5 / max (1 - min (max x 0) 1) 1e-5 := by
    have h := div_le_div (le_of_lt hx1pos) h1lo hx2pos h2hi
    calc (1e-5 : ℝ) = 1e-5 / 1 := by norm_num
    _ ≤ _ := h
  have hrhi : max (min (max x 0) 1) 1e-5 / max (1 - min (max x 0) 1) 1e-5 ≤ 100000 := by
    have h := div_le_div zero_le_one h1hi heps h2lo
    calc max (min (max x 0) 1) 1e-5 / max (1 - min (max x 0) 1) 1e-5 ≤ 1 / 1e-5 := h
    _ = 100000 := by norm_num
  have hrpos : (0 : ℝ) < max (min (max x 0) 1) 1e-5 / max (1 - min (max x 0) 1) 1e-5 :=
    div_pos hx1pos hx2pos
  constructor
  · rw [hform]
    have hlog := Real.log_le_log heps hrlo
    have hepslog : Real.log (1e-5 : ℝ) = -Real.log 100000 := by
      rw [show (1e-5 : ℝ) = (100000 : ℝ)⁻¹ by norm_num, Real.log_inv]
    rw [hepslog] at hlog
    exact hlog
  · rw [hform]
    exact Real.log_le_log hrpos hrhi

/-! Helper lemmas for the decoder loop (claim C1). -/

lemma sigmoid_nonneg (x : ℝ) : 0 ≤ sigmoid x := by
  unfold sigmoid
  have h := Real.exp_pos (-x)
  positivity

lemma sigmoid_le_one (x : ℝ) : sigmoid x ≤ 1 := by
  unfold sigmoid
  rw [div_le_one (by positivity)]
  have h := Real.exp_pos (-x)
  linarith

lemma linear_forward_length (weight : List (List ℝ)) (bias : List ℝ) (x : List ℝ) :
    (linear_forward weight bias x).length = min weight.length bias.length := by
  simp [linear_forward]

lemma decoder_layers_loop_fst_length (decoder_layer : ℕ → List ℝ → List ℝ)
    (norm : List ℝ → List ℝ) (class_head_weight : ℕ → List (List ℝ))
    (class_head_bias : ℕ → List ℝ) (bbox_head : ℕ → List ℝ → List ℝ) :
    ∀ fuel idx hidden_states reference_points,
      ((decoder_layers_loop decoder_layer norm class_head_weight class_head_bias bbox_head
        idx fuel hidden_states reference_points).1).length = fuel := by
  intro fuel
  induction fuel with
  | zero => intro idx h r; rfl
  | succ n ih =>
    intro idx h r
    simp only [decoder_layers_loop, List.length_cons]
    rw [ih]

lemma decoder_layers_loop_snd_length (decoder_layer : ℕ → List ℝ → List ℝ)
    (norm : List ℝ → List ℝ) (class_head_weight : ℕ → List (List ℝ))
    (class_head_bias : ℕ → List ℝ) (bbox_head : ℕ → List ℝ → List ℝ) :
    ∀ fuel idx hidden_states reference_points,
      ((decoder_layers_loop decoder_layer norm class_head_weight class_head_bias bbox_head
        idx fuel hidden_states reference_points).2).length = fuel := by
  intro fuel
  induction fuel with
  | zero => intro idx h r; rfl
  | succ n ih =>
    intro idx h r
    simp only [decoder_layers_loop, List.length_cons]
    rw [ih]

lemma decoder_layers_loop_classes_length (decoder_layer : ℕ → List ℝ → List ℝ)
    (norm : List ℝ → List ℝ) (class_head_weight : ℕ → List (List ℝ))
    (class_head_bias : ℕ → List ℝ) (bbox_head : ℕ → List ℝ → List ℝ) (num_labels : ℕ)
    (hw : ∀ k, (class_head_weight k).length = num_labels)
    (hb : ∀ k, (class_head_bias k).length = num_labels) :
    ∀ fuel idx hidden_states reference_points,
      ∀ cls ∈ (decoder_layers_loop decoder_layer norm class_head_weight class_head_bias
        bbox_head idx fuel hidden_states reference_points).1, cls.length = num_labels := by
  intro fuel
  induction fuel with
  | zero => intro idx h r cls hmem; simp [decoder_layers_loop] at hmem
  | succ n ih =>
    intro idx h r cls hmem
    simp only [decoder_layers_loop] at hmem
    rcases List.mem_cons.mp hmem with rfl | hmem
    · rw [linear_forward_length, hw, hb, Nat.min_self]
    · exact ih _ _ _ cls hmem

lemma decoder_layers_loop_coords_bounds (decoder_layer : ℕ → List ℝ → List ℝ)
    (norm : List ℝ → List ℝ) (class_head_weight : ℕ → List (List ℝ))
    (class_head_bias : ℕ → List ℝ) (bbox_head : ℕ → List ℝ → List ℝ) :
    ∀ fuel idx hidden_states reference_points,
      ∀ coords ∈ (decoder_layers_loop decoder_layer norm class_head_weight class_head_bias
        bbox_head idx fuel hidden_states reference_points).2,
        ∀ c ∈ coords, 0 ≤ c ∧ c ≤ 1 := by
  intro fuel
  induction fuel with
  | zero => intro idx h r coords hmem; simp [decoder_layers_loop] at hmem
  | succ n ih =>
    intro idx h r coords hmem
    simp only [decoder_layers_loop] at hmem
    rcases List.mem_cons.mp hmem with rfl | hmem
    · intro c hc
      obtain ⟨y, _, rfl⟩ := List.mem_map.mp hc
      exact ⟨sigmoid_nonneg y, sigmoid_le_one y⟩
    · exact ih _ _ _ coords hmem

/-- Claim C1: the detection head's primary `logits`/`pred_boxes` are the
layer-`-1` slice of the stacked per-layer decoder predictions, i.e. the last
decoder layer's class and box outputs; `logits` has exactly `num_labels`
entries (the class head is `Linear(d_model, num_labels)`, no extra no-object
class); and every `pred_boxes` coordinate lies in `[0, 1]` because each
layer's box output passes through a sigmoid. -/
theorem detection_head_last_layer (decoder_layer : ℕ → List ℝ → List ℝ)
    (norm : List ℝ → List ℝ) (class_head_weight : ℕ → List (List ℝ))
    (class_head_bias : ℕ → List ℝ) (bbox_head : ℕ → List ℝ → List ℝ)
    (decoder_layers num_labels : ℕ) (hidden_states reference_points : List ℝ)
    (hL : 1 ≤ decoder_layers)
    (hw : ∀ k, (class_head_weight k).length = num_labels)
    (hb : ∀ k, (class_head_bias k).length = num_labels) :
    (detection_head_outputs decoder_layer norm class_head_weight class_head_bias bbox_head
        decoder_layers hidden_states reference_points).1 =
      (decoder_forward decoder_layer norm class_head_weight class_head_bias bbox_head
        decoder_layers hidden_states reference_points).1.getLast? ∧
    (detection_head_outputs decoder_layer norm class_head_weight class_head_bias bbox_head
        decoder_layers hidden_states reference_points).2 =
      (decoder_forward decoder_layer norm class_head_weight class_head_bias bbox_head
        decoder_layers hidden_states reference_points).2.getLast? ∧
    (∃ logits, (detection_head_outputs decoder_layer norm class_head_weight class_head_bias
        bbox_head decoder_layers hidden_states reference_points).1 = some logits) ∧
    (∀ logits, (detection_head_outputs decoder_layer norm class_head_weight class_head_bias
        bbox_head decoder_layers hidden_states reference_points).1 = some logits →
      logits.length = num_labels) ∧
    (∀ pred_boxes, (detection_head_outputs decoder_layer norm class_head_weight class_head_bias
        bbox_head decoder_layers hidden_states reference_points).2 = some pred_boxes →
      ∀ c ∈ pred_boxes, 0 ≤ c ∧ c ≤ 1) := by
  have hlen1 : (decoder_forward decoder_layer norm class_head_weight class_head_bias bbox_head
      decoder_layers hidden_states reference_points).1.length = decoder_layers :=
    decoder_layers_loop_fst_length _ _ _ _ _ _ _ _ _
  have hlen2 : (decoder_forward decoder_layer norm class_head_weight class_head_bias bbox_head
      decoder_layers hidden_states reference_points).2.length = decoder_layers :=
    decoder_layers_loop_snd_length _ _ _ _ _ _ _ _ _
  have hslice1 : (detection_head_outputs decoder_layer norm class_head_weight class_head_bias
      bbox_head decoder_layers hidden_states reference_points).1 =
      (decoder_forward decoder_layer norm class_head_weight class_head_bias bbox_head
        decoder_layers hidden_states reference_points).1.getLast? := by
    show layer_slice_neg_one _ = _
    rw [layer_slice_neg_one, List.getLast?_eq_get?]
  have hslice2 : (detection_head_outputs decoder_layer norm class_head_weight class_head_bias
      bbox_head decoder_layers hidden_states reference_points).2 =
      (decoder_forward decoder_layer norm class_head_weight class_head_bias bbox_head
        decoder_layers hidden_states reference_points).2.getLast? := by
    show layer_slice_neg_one _ = _
    rw [layer_slice_neg_one, List.getLast?_eq_get?]
  refine ⟨hslice1, hslice2, ?_, ?_, ?_⟩
  · rw [hslice1]
    have hne : (decoder_forward decoder_layer norm class_head_weight class_head_bias bbox_head
        decoder_layers hidden_states reference_points).1 ≠ [] := by
      intro hnil
      rw [hnil] at hlen1
      simp at hlen1
      omega
    obtain ⟨a, ha⟩ := List.getLast?_isSome.mpr hne |> Option.isSome_iff_exists.mp
    exact ⟨a, ha⟩
  · intro logits hlg
    rw [hslice1] at hlg
    obtain ⟨hne, heq⟩ := List.mem_getLast?_eq_getLast (Option.mem_def.mpr hlg)
    have hmem : logits ∈ (decoder_forward decoder_layer norm class_head_weight class_head_bias
        bbox_head decoder_layers hidden_states reference_points).1 := by
      rw [heq]
      exact List.getLast_mem hne
    exact decoder_layers_loop_classes_length _ _ _ _ _ _ hw hb _ _ _ _ logits hmem
  · intro pred_boxes hpb
    rw [hslice2] at hpb
    obtain ⟨hne, heq⟩ := List.mem_getLast?_eq_getLast (Option.mem_def.mpr hpb)
    have hmem : pred_boxes ∈ (decoder_forward decoder_layer norm class_head_weight
        class_head_bias bbox_head decoder_layers hidden_states reference_points).2 := by
      rw [heq]
      exact List.getLast_mem hne
    exact decoder_layers_loop_coords_bounds _ _ _ _ _ _ _ _ _ pred_boxes hmem

/-- Witness for C1: a one-layer decoder with a two-class head. -/
theorem detection_head_last_layer_witness :
    1 ≤ 1 ∧
    ((detection_head_outputs (fun _ v => v) (fun v => v) (fun _ => [[(1 : ℝ)], [0]])
        (fun _ => [0, 0]) (fun _ _ => [0, 0, 0, 0]) 1 [0] [1/2, 1/2, 1/2, 1/2]).1 =
      (decoder_forward (fun _ v => v) (fun v => v) (fun _ => [[(1 : ℝ)], [0]])
        (fun _ => [0, 0]) (fun _ _ => [0, 0, 0, 0]) 1 [0] [1/2, 1/2, 1/2, 1/2]).1.getLast? ∧
    (detection_head_outputs (fun _ v => v) (fun v => v) (fun _ => [[(1 : ℝ)], [0]])
        (fun _ => [0, 0]) (fun _ _ => [0, 0, 0, 0]) 1 [0] [1/2, 1/2, 1/2, 1/2]).2 =
      (decoder_forward (fun _ v => v) (fun v => v) (fun _ => [[(1 : ℝ)], [0]])
        (fun _ => [0, 0]) (fun _ _ => [0, 0, 0, 0]) 1 [0] [1/2, 1/2, 1/2, 1/2]).2.getLast? ∧
    (∃ logits, (detection_head_outputs (fun _ v => v) (fun v => v) (fun _ => [[(1 : ℝ)], [0]])
        (fun _ => [0, 0]) (fun _ _ => [0, 0, 0, 0]) 1 [0] [1/2, 1/2, 1/2, 1/2]).1 =
      some logits) ∧
    (∀ logits, (detection_head_outputs (fun _ v => v) (fun v => v) (fun _ => [[(1 : ℝ)], [0]])
        (fun _ => [0, 0]) (fun _ _ => [0, 0, 0, 0]) 1 [0] [1/2, 1/2, 1/2, 1/2]).1 =
      some logits → logits.length = 2) ∧
    (∀ pred_boxes, (detection_head_outputs (fun _ v => v) (fun v => v)
        (fun _ => [[(1 : ℝ)], [0]]) (fun _ => [0, 0]) (fun _ _ => [0, 0, 0, 0]) 1 [0]
        [1/2, 1/2, 1/2, 1/2]).2 = some pred_boxes → ∀ c ∈ pred_boxes, 0 ≤ c ∧ c ≤ 1)) :=
  ⟨by decide,
   detection_head_last_layer (fun _ v => v) (fun v => v) (fun _ => [[(1 : ℝ)], [0]])
     (fun _ => [0, 0]) (fun _ _ => [0, 0, 0, 0]) 1 2 [0] [1/2, 1/2, 1/2, 1/2]
     (by decide) (fun _ => rfl) (fun _ => rfl)⟩

end RelationDetr
